import Mathlib

/-!
Verification of the GPOS pair-kerning compaction engine
(`gpos_compaction/compact_kern_feature_writer.py`) against its
natural-language specification.

The Python source is shallowly embedded below:
  * value records and the zero filter (`is_really_zero`),
  * the pair extractor of `compact_class_pairs` (coverage / class
    definitions / the `Class1Record` matrix, including the
    `defaultdict` accesses performed while building `all_pairs`),
  * the three regrouping strategies ("one" / "max" / "auto") and the
    class2-coverage clustering of `cluster_pairs_by_class2_coverage`
    (the external scikit-learn `fit_predict` call is abstracted as a
    labelling function, one label per occupancy vector),
  * the lookup adapters `compact_lookup`, `compact_ext_lookup` and the
    top-level `compact` walk, with Python exceptions modelled in
    `Except`.

Python dictionaries are modelled as association lists with unique keys
(insertion order preserved; `dict.__setitem__` keeps the position of an
existing key, a fresh key is appended).  Where Python iterates over a
`set` the model uses first-occurrence order, a legitimate
determinisation of the unspecified set order.
-/

namespace GposCompaction

/-- A glyph identifier (fontTools glyph name). -/
abbrev Glyph := String

/-- A device / variation table attached to one scalar field of a value
record.  The compaction code never looks inside one, so it is carried
opaquely. -/
structure DeviceTable where
  tag : Nat
deriving DecidableEq, Repr

/-- A fontTools `ValueRecord`: each scalar field and each device table
is an optional attribute (absent attributes simply do not exist on the
Python object, hence `Option`). -/
structure ValueRecord where
  XPlacement : Option Int := none
  YPlacement : Option Int := none
  XAdvance : Option Int := none
  YAdvance : Option Int := none
  XPlaDevice : Option DeviceTable := none
  YPlaDevice : Option DeviceTable := none
  XAdvDevice : Option DeviceTable := none
  YAdvDevice : Option DeviceTable := none
deriving DecidableEq, Repr

/-- `getattr(value, attr, 0)` for the scalar fields: the attribute's
value when present, the default `0` when absent or unknown. -/
def scalarAttr (v : ValueRecord) (attr : String) : Int :=
  match attr with
  | "XPlacement" => v.XPlacement.getD 0
  | "YPlacement" => v.YPlacement.getD 0
  | "XAdvance" => v.XAdvance.getD 0
  | "YAdvance" => v.YAdvance.getD 0
  | _ => 0

/-- `getattr(value, attr, None)` for the device-table fields: the
attribute's value when present, `None` when absent or when `attr` names
no attribute of a value record. -/
def deviceAttr (v : ValueRecord) (attr : String) : Option DeviceTable :=
  match attr with
  | "XPlaDevice" => v.XPlaDevice
  | "YPlaDevice" => v.YPlaDevice
  | "XAdvDevice" => v.XAdvDevice
  | "YAdvDevice" => v.YAdvDevice
  | _ => none

/-- `is_really_zero` from the source.  The first `all(...)` ranges over
the four scalar attribute names.  In the second `all(...)` the source
lists the four device attribute names WITHOUT separating commas, so
Python concatenates the string literals into the single string
"XPlaDeviceYPlaDeviceXAdvDeviceYAdvDevice"; the embedding reproduces
that concatenation faithfully (the list below has exactly one
element). -/
def is_really_zero : Option ValueRecord → Bool
  | none => true
  | some v =>
    (["XPlacement", "YPlacement", "XAdvance", "YAdvance"].all fun attr =>
      scalarAttr v attr == 0)
    &&
    (["XPlaDevice" ++ "YPlaDevice" ++ "XAdvDevice" ++ "YAdvDevice"].all fun attr =>
      (deviceAttr v attr).isNone)

/-- A `(class1 glyph tuple, class2 glyph tuple)` key of the pair
matrix. -/
abbrev PairKey := List Glyph × List Glyph

/-- The `(Value1, Value2)` pair stored in one matrix cell. -/
abbrev ValuePair := Option ValueRecord × Option ValueRecord

/-- The sparse pair matrix `all_pairs`: a Python dict modelled as an
association list with unique keys in insertion order. -/
abbrev Pairs := List (PairKey × ValuePair)

/-- One entry of a pair matrix. -/
abbrev PairEntry := PairKey × ValuePair

/-- Lookup in an association list (Python `dict.get` / `in`). -/
def assocGet {κ β : Type} [DecidableEq κ] : List (κ × β) → κ → Option β
  | [], _ => none
  | (k', v) :: rest, k => if k' = k then some v else assocGet rest k

/-- `d[k] = v` on a Python dict: overwrite in place when the key
exists, append otherwise. -/
def assocSet {κ β : Type} [DecidableEq κ] : List (κ × β) → κ → β → List (κ × β)
  | [], k, v => [(k, v)]
  | (k', v') :: rest, k, v =>
    if k' = k then (k, v) :: rest else (k', v') :: assocSet rest k v

/-- `d[k].extend(vs)` on a `defaultdict` holding lists: extend the
bucket of an existing key in place, create the bucket (at the end)
otherwise.  With singleton `vs` this is `d[k].append(v)`; it also
models `d[k].update(sub_dict)` on a `defaultdict(dict)` whenever the
inserted keys are fresh, which is the only way the source uses it. -/
def bucketApp {κ β : Type} [DecidableEq κ] :
    List (κ × List β) → κ → List β → List (κ × List β)
  | [], k, vs => [(k, vs)]
  | (k', vs') :: rest, k, vs =>
    if k' = k then (k', vs' ++ vs) :: rest else (k', vs') :: bucketApp rest k vs

/-- Group a list by a key function, buckets created in first-occurrence
order, bucket contents in original order: the result of the Python
pattern `d = defaultdict(list); for e in l: d[key(e)].append(e)`. -/
def groupByKey {κ β : Type} [DecidableEq κ] (key : β → κ) (l : List β) :
    List (κ × List β) :=
  l.foldl (fun acc e => bucketApp acc (key e) [e]) []

/-- Worker for `firstOccs`; `seen` accumulates the values already
emitted. -/
def firstOccsAux {κ : Type} [DecidableEq κ] (seen : List κ) : List κ → List κ
  | [] => []
  | a :: rest =>
    if a ∈ seen then firstOccsAux seen rest else a :: firstOccsAux (a :: seen) rest

/-- The distinct values of a list in first-occurrence order; the
deterministic rendering of Python's `list(set(l))`. -/
def firstOccs {κ : Type} [DecidableEq κ] (l : List κ) : List κ :=
  firstOccsAux [] l

/-- A class-based (format 2) pair-positioning subtable, as the source
reads it: first-glyph coverage, the two class definitions (glyph to
class id) and the `Class1Record` matrix of value pairs, row `i` being
class1 id `i` and column `j` class2 id `j`. -/
structure ClassPairSubtable where
  coverage : List Glyph
  classDef1 : List (Glyph × Nat)
  classDef2 : List (Glyph × Nat)
  class1Records : List (List ValuePair)
deriving DecidableEq, Repr

/-- The mutable state of `compact_class_pairs` while it extracts
`all_pairs`: the two `defaultdict(list)` class maps and the pair dict.
`classes1` and `classes2` keep changing during extraction because a
plain `classes1[i]` read on a `defaultdict` inserts an empty bucket for
a missing key `i`. -/
structure ExtractState where
  classes1 : List (Nat × List Glyph)
  classes2 : List (Nat × List Glyph)
  all_pairs : Pairs
deriving DecidableEq, Repr

/-- Read `d[i]` on a `defaultdict(list)`: return the bucket and the
(possibly extended) dict. -/
def ddGet (d : List (Nat × List Glyph)) (i : Nat) :
    List Glyph × List (Nat × List Glyph) :=
  match assocGet d i with
  | some v => (v, d)
  | none => ([], d ++ [(i, [])])

/-- One cell of the extraction loop: skip the cell when both value
records are really zero, otherwise record
`all_pairs[(tuple(classes1[i]), tuple(classes2[j]))] = (Value1, Value2)`. -/
def extractCell (st : ExtractState) (i j : Nat) (cell : ValuePair) : ExtractState :=
  if is_really_zero cell.1 && is_really_zero cell.2 then st
  else
    let r1 := ddGet st.classes1 i
    let r2 := ddGet st.classes2 j
    { classes1 := r1.2, classes2 := r2.2,
      all_pairs := assocSet st.all_pairs (r1.1, r2.1) cell }

/-- One `Class1Record` row of the extraction loop. -/
def extractRow (st : ExtractState) (i : Nat) (row : List ValuePair) : ExtractState :=
  row.enum.foldl (fun s jc => extractCell s i jc.1 jc.2) st

/-- The pair extractor of `compact_class_pairs` (source lines 96-110):
build `classes1` from the coverage glyphs (glyphs missing from the
class1 definition default to class 0), build `classes2` from the class2
definition items, then walk the `Class1Record` matrix collecting the
non-zero cells into `all_pairs`. -/
def extract (st : ClassPairSubtable) : ExtractState :=
  let classes1 :=
    st.coverage.foldl
      (fun acc g => bucketApp acc ((assocGet st.classDef1 g).getD 0) [g]) []
  let classes2 :=
    st.classDef2.foldl (fun acc gi => bucketApp acc gi.2 [gi.1]) []
  st.class1Records.enum.foldl (fun s ir => extractRow s ir.1 ir.2)
    { classes1 := classes1, classes2 := classes2, all_pairs := [] }

/-- The scikit-learn `AgglomerativeClustering(...).fit_predict` call,
abstracted as a function from the list of binary occupancy vectors to a
list of cluster labels; its contract (one label per sample) is carried
as a hypothesis where a theorem needs it. -/
abbrev FitPredict := List (List Nat) → List Int

/-- The label-assignment loop at the end of
`cluster_pairs_by_class2_coverage`: walk `zip(all_class1, labels)`,
sending the matrix line of each class1 key either to `grouped_lines[label]`
(label merged in place, fresh labels appended) or, for the scikit-learn
outlier label `-1`, to `ungrouped_lines`. -/
def clusterAssign (lines : List (List Glyph × Pairs)) :
    List (List Glyph × Int) → List (Int × Pairs) → List Pairs →
      List (Int × Pairs) × List Pairs
  | [], grouped, ungrouped => (grouped, ungrouped)
  | cl :: rest, grouped, ungrouped =>
    let line := (assocGet lines cl.1).getD []
    if cl.2 = -1 then clusterAssign lines rest grouped (ungrouped ++ [line])
    else clusterAssign lines rest (bucketApp grouped cl.2 line) ungrouped

/-- `cluster_pairs_by_class2_coverage` (source lines 169-213), with the
scikit-learn call abstracted by `fp`: enumerate the distinct class1 and
class2 keys, build one binary class2-occupancy vector per class1 key,
group the pairs into matrix lines by class1 key, cluster the vectors,
then merge the lines of each cluster label (outlier lines stay single)
and return grouped lines first, ungrouped lines after. -/
def cluster_pairs_by_class2_coverage (fp : FitPredict) (pairs : Pairs) :
    List Pairs :=
  let all_class1 := firstOccs (pairs.map fun e => e.1.1)
  let all_class2 := firstOccs (pairs.map fun e => e.1.2)
  let vectors := all_class1.map fun c1 => all_class2.map fun c2 =>
    if (assocGet pairs (c1, c2)).isSome then 1 else 0
  let lines := groupByKey (fun e : PairEntry => e.1.1) pairs
  let labels := fp vectors
  let st := clusterAssign lines (all_class1.zip labels) [] []
  st.1.map Prod.snd ++ st.2

/-- The strategy dispatch of `compact_class_pairs` (source lines
112-139) at the level of SubtableGroups: "one" returns the whole
matrix as a single group, "max" partitions it by class1 key, "auto"
falls back to "one" when `len(classes1) < 2` and otherwise runs the
clustering engine; any other mode raises `ValueError("Bad config ...")`.
`classes1_len` is the length of the `classes1` dict after extraction. -/
def regroup (mode : String) (fp : FitPredict) (classes1_len : Nat)
    (pairs : Pairs) : Except String (List Pairs) :=
  if mode = "one" then Except.ok [pairs]
  else if mode = "max" then
    Except.ok ((groupByKey (fun e : PairEntry => e.1.1) pairs).map Prod.snd)
  else if mode = "auto" then
    if classes1_len < 2 then Except.ok [pairs]
    else Except.ok (cluster_pairs_by_class2_coverage fp pairs)
  else Except.error "Bad config"

/-- `compact_class_pairs` at the level of SubtableGroups: extract the
pair matrix from the subtable, then regroup it (each returned group is
passed to `buildPairPosClassesSubtable`, producing exactly one output
subtable per group). -/
def compact_class_pairs (mode : String) (fp : FitPredict)
    (st : ClassPairSubtable) : Except String (List Pairs) :=
  regroup mode fp (extract st).classes1.length (extract st).all_pairs

/-- A pair-adjustment subtable as seen by the lookup adapters.  The
subtable built by the external `buildPairPosClassesSubtable` collaborator
is carried opaquely as `built g`, identified by the SubtableGroup it was
built from. -/
inductive PairSubtable
  | glyphPair (tag : Nat)
  | classPair (st : ClassPairSubtable)
  | otherFormat (fmt : Nat) (tag : Nat)
  | built (group : Pairs)
deriving DecidableEq, Repr

/-- `compact_glyph_pairs` (source lines 80-86): a glyph-pair (format 1)
subtable is passed through unchanged, whatever the configuration. -/
def compact_glyph_pairs (_mode : String) (st : PairSubtable) : List PairSubtable :=
  [st]

/-- Process one direct subtable inside `compact_lookup`: format 1 goes
through `compact_glyph_pairs`, format 2 through `compact_class_pairs`
(one `built` subtable per returned group), any other format falls
through the `if`/`elif` and contributes nothing.  A `built` subtable
never occurs in a decoded font, so re-extracting one is outside the
model. -/
def compactSubtableDirect (mode : String) (fp : FitPredict) :
    PairSubtable → Except String (List PairSubtable)
  | .glyphPair t => Except.ok (compact_glyph_pairs mode (.glyphPair t))
  | .classPair c =>
    (compact_class_pairs mode fp c).map fun gs => gs.map PairSubtable.built
  | .otherFormat _ _ => Except.ok []
  | .built _ => Except.error "re-extraction of a built subtable is not modelled"

/-- The subtable walk of `compact_lookup` (source lines 48-58):
concatenate the per-subtable results in order. -/
def compact_lookup_sts (mode : String) (fp : FitPredict) :
    List PairSubtable → Except String (List PairSubtable)
  | [] => Except.ok []
  | st :: rest => do
    let here ← compactSubtableDirect mode fp st
    let tail ← compact_lookup_sts mode fp rest
    Except.ok (here ++ tail)

/-- An extension (lookup type 9) wrapper record.  Wrappers decoded from
a font carry `ExtensionLookupType`; the wrappers created by
`compact_ext_lookup` never set that attribute, hence `none`. -/
structure ExtensionPos where
  extensionLookupType : Option Nat
  extSubTable : PairSubtable
deriving DecidableEq, Repr

/-- The subtable walk of `compact_ext_lookup` (source lines 61-77).
`prev` is the current value of the Python local `new_subtables`: it is
only assigned in the format-1 and format-2 branches, so a wrapped
subtable of any other format re-wraps the PREVIOUS subtable's results
again, and if it comes first the `for subtable in new_subtables` line
raises `UnboundLocalError`.  Every produced result is wrapped in a
fresh `ExtensionPos`. -/
def compact_ext_sts (mode : String) (fp : FitPredict) :
    List ExtensionPos → Option (List PairSubtable) →
      Except String (List ExtensionPos)
  | [], _ => Except.ok []
  | ext :: rest, prev => do
    let news ←
      match ext.extSubTable with
      | .glyphPair t => Except.ok (compact_glyph_pairs mode (.glyphPair t))
      | .classPair c =>
        (compact_class_pairs mode fp c).map fun gs => gs.map PairSubtable.built
      | .otherFormat _ _ =>
        match prev with
        | none => Except.error "UnboundLocalError: new_subtables"
        | some l => Except.ok l
      | .built _ =>
        Except.error "re-extraction of a built subtable is not modelled"
    let tail ← compact_ext_sts mode fp rest (some news)
    Except.ok ((news.map fun s => ExtensionPos.mk none s) ++ tail)

/-- A GPOS lookup: `pairPos` is LookupType 2, `extension` LookupType 9
and `other` any other lookup type; the second component mirrors
`SubTableCount`. -/
inductive Lookup
  | pairPos (subTables : List PairSubtable) (count : Nat)
  | extension (subTables : List ExtensionPos) (count : Nat)
  | other (lookupType : Nat) (tag : Nat)
deriving DecidableEq, Repr

/-- The dispatch of `compact` on one lookup (source lines 40-44,
combined with the list replacement of lines 57-58 and 76-77): a
LookupType 2 lookup gets its subtable list rebuilt by `compact_lookup`,
a LookupType 9 lookup is unwrapped by `compact_ext_lookup` when its
first subtable has `ExtensionLookupType == 2` (an empty subtable list
raises `IndexError`, a wrapper without the attribute would raise
`AttributeError`), and every other lookup is left untouched.  After
rebuilding, `SubTableCount` is set to the new list's length. -/
def compactLookup1 (mode : String) (fp : FitPredict) :
    Lookup → Except String Lookup
  | .pairPos sts _ =>
    (compact_lookup_sts mode fp sts).map fun ns => Lookup.pairPos ns ns.length
  | .extension sts cnt =>
    match sts with
    | [] => Except.error "IndexError: lookup.SubTable"
    | e :: _ =>
      match e.extensionLookupType with
      | none => Except.error "AttributeError: ExtensionLookupType"
      | some t =>
        if t = 2 then
          (compact_ext_sts mode fp sts none).map fun ns =>
            Lookup.extension ns ns.length
        else Except.ok (Lookup.extension sts cnt)
  | .other t tag => Except.ok (Lookup.other t tag)

/-- The top-level `compact` walk over the GPOS lookup list.  A Python
exception (the `ValueError` of a bad mode, or the crashes modelled
above) aborts the walk; on success every lookup carries its rebuilt
subtable list. -/
def compact (mode : String) (fp : FitPredict) :
    List Lookup → Except String (List Lookup)
  | [] => Except.ok []
  | lk :: rest => do
    let lk' ← compactLookup1 mode fp lk
    let rest' ← compact mode fp rest
    Except.ok (lk' :: rest')

/-- Concatenation of a list of SubtableGroups (or any buckets): the
union, with multiplicity, of all their entries. -/
def flat {α : Type} : List (List α) → List α
  | [] => []
  | g :: gs => g ++ flat gs

@[simp]
lemma flat_nil {α : Type} : flat ([] : List (List α)) = [] := rfl

@[simp]
lemma flat_cons {α : Type} (g : List α) (gs : List (List α)) :
    flat (g :: gs) = g ++ flat gs := rfl

lemma flat_append {α : Type} (l₁ l₂ : List (List α)) :
    flat (l₁ ++ l₂) = flat l₁ ++ flat l₂ := by
  induction l₁ with
  | nil => simp
  | cons g gs ih => simp [ih]


/-- Occurrence count of an element, via `countP` over propositional
equality, so that every count in this development uses the one
`DecidableEq` route. -/
def cnt {α : Type} [DecidableEq α] (e : α) (l : List α) : Nat :=
  l.countP fun x => decide (x = e)

@[simp]
lemma cnt_nil {α : Type} [DecidableEq α] (e : α) : cnt e [] = 0 := rfl

lemma cnt_cons {α : Type} [DecidableEq α] (e a : α) (l : List α) :
    cnt e (a :: l) = cnt e l + if a = e then 1 else 0 := by
  simp [cnt, List.countP_cons]

lemma cnt_append {α : Type} [DecidableEq α] (e : α) (l₁ l₂ : List α) :
    cnt e (l₁ ++ l₂) = cnt e l₁ + cnt e l₂ := by
  simp [cnt, List.countP_append]

lemma cnt_eq_zero {α : Type} [DecidableEq α] (e : α) (l : List α) :
    cnt e l = 0 ↔ e ∉ l := by
  induction l with
  | nil => simp
  | cons a l ih =>
    by_cases h : a = e
    · subst h
      simp [cnt_cons]
    · simp only [cnt_cons, if_neg h, Nat.add_zero, List.mem_cons, ih, not_or]
      constructor
      · intro hn
        exact ⟨fun he => h he.symm, hn⟩
      · intro hn
        exact hn.2

lemma cnt_pos {α : Type} [DecidableEq α] (e : α) (l : List α) :
    0 < cnt e l ↔ e ∈ l := by
  rw [Nat.pos_iff_ne_zero, Ne, cnt_eq_zero, not_not]

lemma cnt_eq_one_of_nodup {α : Type} [DecidableEq α] {e : α} {l : List α}
    (hnd : l.Nodup) (he : e ∈ l) : cnt e l = 1 := by
  induction l with
  | nil => simp at he
  | cons a l ih =>
    rw [List.nodup_cons] at hnd
    rcases List.mem_cons.mp he with he | he
    · subst he
      have : cnt e l = 0 := (cnt_eq_zero e l).mpr hnd.1
      simp [cnt_cons, this]
    · have hne : a ≠ e := fun h => hnd.1 (h ▸ he)
      simp [cnt_cons, if_neg hne, ih hnd.2 he]

lemma cnt_flat_eq_sum {α : Type} [DecidableEq α] (gs : List (List α)) (e : α) :
    cnt e (flat gs) = (gs.map fun g => cnt e g).sum := by
  induction gs with
  | nil => simp
  | cons g gs ih => simp [cnt_append, ih]

/-- Boolean membership through `DecidableEq` only, used to count in how
many groups an entry occurs. -/
def memB {α : Type} [DecidableEq α] (e : α) : List α → Bool
  | [] => false
  | a :: l => a = e || memB e l

lemma memB_iff {α : Type} [DecidableEq α] (e : α) (l : List α) :
    memB e l = true ↔ e ∈ l := by
  induction l with
  | nil => simp [memB]
  | cons a l ih =>
    simp only [memB, Bool.or_eq_true, decide_eq_true_eq, List.mem_cons, ih]
    constructor
    · rintro (rfl | h)
      · exact Or.inl rfl
      · exact Or.inr h
    · rintro (rfl | h)
      · exact Or.inl rfl
      · exact Or.inr h

lemma countP_mem_eq_zero_of_sum {α : Type} [DecidableEq α] (gs : List (List α))
    (e : α) (h : (gs.map fun g => cnt e g).sum = 0) :
    gs.countP (memB e) = 0 := by
  induction gs with
  | nil => simp
  | cons g gs ih =>
    simp only [List.map_cons, List.sum_cons, Nat.add_eq_zero] at h
    have hg : ¬(memB e g = true) := fun hx =>
      (cnt_eq_zero e g).mp h.1 ((memB_iff e g).mp hx)
    simp [List.countP_cons, hg, ih h.2]

lemma countP_mem_eq_one_of_sum {α : Type} [DecidableEq α] (gs : List (List α))
    (e : α) (h : (gs.map fun g => cnt e g).sum = 1) :
    gs.countP (memB e) = 1 := by
  induction gs with
  | nil => simp at h
  | cons g gs ih =>
    simp only [List.map_cons, List.sum_cons] at h
    rcases Nat.eq_zero_or_pos (cnt e g) with hz | hp
    · have hg : ¬(memB e g = true) := fun hx =>
        (cnt_eq_zero e g).mp hz ((memB_iff e g).mp hx)
      rw [hz, Nat.zero_add] at h
      simp [List.countP_cons, hg, ih h]
    · have hg : memB e g = true := (memB_iff e g).mpr ((cnt_pos e g).mp hp)
      have h1 : (gs.map fun g => cnt e g).sum = 0 := by omega
      simp [List.countP_cons, hg, countP_mem_eq_zero_of_sum gs e h1]

lemma bucketApp_keys {κ β : Type} [DecidableEq κ] (acc : List (κ × List β))
    (k : κ) (vs : List β) :
    (bucketApp acc k vs).map Prod.fst =
      if k ∈ acc.map Prod.fst then acc.map Prod.fst
      else acc.map Prod.fst ++ [k] := by
  induction acc with
  | nil => simp [bucketApp]
  | cons p rest ih =>
    by_cases h : p.1 = k
    · simp [bucketApp, h]
    · have hne : ¬k = p.1 := fun hk => h hk.symm
      simp only [bucketApp, h, if_false, List.map_cons, List.mem_cons, hne,
        false_or, ih]
      by_cases hm : k ∈ rest.map Prod.fst <;> simp [hm]

lemma cnt_flat_bucketApp {κ β : Type} [DecidableEq κ] [DecidableEq β]
    (acc : List (κ × List β)) (k : κ) (vs : List β) (e : β) :
    cnt e (flat ((bucketApp acc k vs).map Prod.snd)) =
      cnt e (flat (acc.map Prod.snd)) + cnt e vs := by
  induction acc with
  | nil => simp [bucketApp, cnt_append]
  | cons p rest ih =>
    by_cases h : p.1 = k
    · simp [bucketApp, h, cnt_append]
      omega
    · simp [bucketApp, h, cnt_append, ih]
      omega

lemma bucketApp_homog {κ β : Type} [DecidableEq κ] (acc : List (κ × List β))
    (k : κ) (vs : List β) (key : β → κ)
    (hacc : ∀ p ∈ acc, ∀ e ∈ p.2, key e = p.1)
    (hvs : ∀ e ∈ vs, key e = k) :
    ∀ p ∈ bucketApp acc k vs, ∀ e ∈ p.2, key e = p.1 := by
  induction acc with
  | nil =>
    intro p hp e he
    simp only [bucketApp, List.mem_singleton] at hp
    subst hp
    exact hvs e he
  | cons q rest ih =>
    intro p hp e he
    by_cases h : q.1 = k
    · have hstep : bucketApp (q :: rest) k vs = (q.1, q.2 ++ vs) :: rest := by
        rcases q with ⟨k', vs'⟩
        simp only [bucketApp, if_pos h]
      rw [hstep] at hp
      rcases List.mem_cons.mp hp with hp | hp
      · subst hp
        rcases List.mem_append.mp he with he' | he'
        · exact hacc q (List.mem_cons_self q rest) e he'
        · exact (hvs e he').trans h.symm
      · exact hacc p (List.mem_cons_of_mem q hp) e he
    · have hstep : bucketApp (q :: rest) k vs = q :: bucketApp rest k vs := by
        rcases q with ⟨k', vs'⟩
        simp only [bucketApp, if_neg h]
      rw [hstep] at hp
      rcases List.mem_cons.mp hp with hp | hp
      · subst hp
        exact hacc _ (List.mem_cons_self _ _) e he
      · exact ih (fun r hr => hacc r (List.mem_cons_of_mem q hr)) p hp e he

lemma firstOccsAux_congr {κ : Type} [DecidableEq κ] (l : List κ)
    (s₁ s₂ : List κ) (h : ∀ x, x ∈ s₁ ↔ x ∈ s₂) :
    firstOccsAux s₁ l = firstOccsAux s₂ l := by
  induction l generalizing s₁ s₂ with
  | nil => rfl
  | cons a rest ih =>
    by_cases ha : a ∈ s₁
    · have ha₂ : a ∈ s₂ := (h a).mp ha
      simp [firstOccsAux, ha, ha₂, ih s₁ s₂ h]
    · have ha₂ : a ∉ s₂ := fun hx => ha ((h a).mpr hx)
      have h' : ∀ x, x ∈ a :: s₁ ↔ x ∈ a :: s₂ := by
        intro x
        simp [h x]
      simp [firstOccsAux, ha, ha₂, ih (a :: s₁) (a :: s₂) h']

lemma mem_firstOccsAux {κ : Type} [DecidableEq κ] (l : List κ) (seen : List κ)
    (a : κ) : a ∈ firstOccsAux seen l ↔ a ∈ l ∧ a ∉ seen := by
  induction l generalizing seen with
  | nil => simp [firstOccsAux]
  | cons b rest ih =>
    by_cases hb : b ∈ seen
    · simp only [firstOccsAux, if_pos hb, ih, List.mem_cons]
      constructor
      · rintro ⟨h1, h2⟩
        exact ⟨Or.inr h1, h2⟩
      · rintro ⟨h1 | h1, h2⟩
        · subst h1
          exact absurd hb h2
        · exact ⟨h1, h2⟩
    · simp only [firstOccsAux, if_neg hb, List.mem_cons, ih, not_or]
      constructor
      · rintro (rfl | ⟨h1, h2, h3⟩)
        · exact ⟨Or.inl rfl, hb⟩
        · exact ⟨Or.inr h1, h3⟩
      · rintro ⟨rfl | h1, h2⟩
        · exact Or.inl rfl
        · by_cases hab : a = b
          · exact Or.inl hab
          · exact Or.inr ⟨h1, hab, h2⟩

lemma nodup_firstOccsAux {κ : Type} [DecidableEq κ] (l : List κ)
    (seen : List κ) : (firstOccsAux seen l).Nodup := by
  induction l generalizing seen with
  | nil => simp [firstOccsAux]
  | cons b rest ih =>
    by_cases hb : b ∈ seen
    · simpa [firstOccsAux, if_pos hb] using ih seen
    · simp only [firstOccsAux, if_neg hb, List.nodup_cons]
      refine ⟨?_, ih (b :: seen)⟩
      intro hmem
      exact ((mem_firstOccsAux rest (b :: seen) b).mp hmem).2
        (List.mem_cons_self b seen)

lemma mem_firstOccs {κ : Type} [DecidableEq κ] (l : List κ) (a : κ) :
    a ∈ firstOccs l ↔ a ∈ l := by
  simp [firstOccs, mem_firstOccsAux]

lemma nodup_firstOccs {κ : Type} [DecidableEq κ] (l : List κ) :
    (firstOccs l).Nodup :=
  nodup_firstOccsAux l []

lemma groupByKey_keys_aux {κ β : Type} [DecidableEq κ] (key : β → κ)
    (l : List β) (acc : List (κ × List β)) :
    ((l.foldl (fun acc e => bucketApp acc (key e) [e]) acc).map Prod.fst) =
      acc.map Prod.fst ++ firstOccsAux (acc.map Prod.fst) (l.map key) := by
  induction l generalizing acc with
  | nil => simp [firstOccsAux]
  | cons e rest ih =>
    simp only [List.foldl_cons, List.map_cons]
    rw [ih]
    rw [bucketApp_keys]
    by_cases h : key e ∈ acc.map Prod.fst
    · simp only [if_pos h, firstOccsAux, if_pos h]
    · simp only [if_neg h, firstOccsAux, if_neg h]
      rw [List.append_assoc, List.singleton_append]
      congr 1
      congr 1
      refine firstOccsAux_congr (rest.map key) _ _ ?_
      intro x
      simp only [List.mem_append, List.mem_singleton, List.mem_cons]
      tauto

lemma groupByKey_keys {κ β : Type} [DecidableEq κ] (key : β → κ) (l : List β) :
    (groupByKey key l).map Prod.fst = firstOccs (l.map key) := by
  simpa [groupByKey, firstOccs] using groupByKey_keys_aux key l []

lemma groupByKey_cnt_aux {κ β : Type} [DecidableEq κ] [DecidableEq β]
    (key : β → κ) (l : List β) (acc : List (κ × List β)) (e : β) :
    cnt e (flat ((l.foldl (fun acc x => bucketApp acc (key x) [x]) acc).map
      Prod.snd)) =
      cnt e (flat (acc.map Prod.snd)) + cnt e l := by
  induction l generalizing acc with
  | nil => simp
  | cons x rest ih =>
    simp only [List.foldl_cons]
    rw [ih, cnt_flat_bucketApp]
    rw [cnt_cons, cnt_cons]
    simp only [cnt_nil, Nat.zero_add]
    omega

lemma groupByKey_cnt {κ β : Type} [DecidableEq κ] [DecidableEq β]
    (key : β → κ) (l : List β) (e : β) :
    cnt e (flat ((groupByKey key l).map Prod.snd)) = cnt e l := by
  simpa [groupByKey] using groupByKey_cnt_aux key l [] e

lemma groupByKey_homog {κ β : Type} [DecidableEq κ] (key : β → κ) (l : List β) :
    ∀ p ∈ groupByKey key l, ∀ e ∈ p.2, key e = p.1 := by
  suffices h : ∀ acc, (∀ p ∈ acc, ∀ e ∈ p.2, key e = p.1) →
      ∀ p ∈ l.foldl (fun acc x => bucketApp acc (key x) [x]) acc,
        ∀ e ∈ p.2, key e = p.1 by
    exact h [] (by simp)
  induction l with
  | nil =>
    intro acc hacc
    simpa using hacc
  | cons x rest ih =>
    intro acc hacc
    simp only [List.foldl_cons]
    refine ih (bucketApp acc (key x) [x]) ?_
    exact bucketApp_homog acc (key x) [x] key hacc (by simp)

lemma assocGet_of_mem_nodup {κ β : Type} [DecidableEq κ]
    (l : List (κ × β)) (p : κ × β) (hnd : (l.map Prod.fst).Nodup)
    (hp : p ∈ l) : assocGet l p.1 = some p.2 := by
  induction l with
  | nil => simp at hp
  | cons q rest ih =>
    rcases q with ⟨k', v'⟩
    simp only [List.map_cons, List.nodup_cons] at hnd
    rcases List.mem_cons.mp hp with hq | hq
    · rw [hq]
      simp [assocGet]
    · have hne : ¬k' = p.1 := by
        intro he
        exact hnd.1 (he ▸ List.mem_map_of_mem Prod.fst hq)
      simp only [assocGet, if_neg hne]
      exact ih hnd.2 hq

lemma zip_line_map (lines : List (List Glyph × Pairs))
    (l1 : List (List Glyph)) (l2 : List Int) (h : l1.length ≤ l2.length) :
    ((l1.zip l2).map fun p => (assocGet lines p.1).getD []) =
      l1.map fun c => (assocGet lines c).getD [] := by
  calc ((l1.zip l2).map fun p => (assocGet lines p.1).getD [])
      = ((l1.zip l2).map Prod.fst).map fun c => (assocGet lines c).getD [] := by
        rw [List.map_map]
        rfl
    _ = l1.map fun c => (assocGet lines c).getD [] := by
        rw [List.map_fst_zip l1 l2 h]

lemma lines_self (pairs : Pairs) :
    ((firstOccs (pairs.map fun x : PairEntry => x.1.1)).map fun c =>
      (assocGet (groupByKey (fun x : PairEntry => x.1.1) pairs) c).getD []) =
      (groupByKey (fun x : PairEntry => x.1.1) pairs).map Prod.snd := by
  conv_lhs => rw [← groupByKey_keys (fun x : PairEntry => x.1.1) pairs]
  rw [List.map_map]
  refine List.map_congr_left ?_
  intro p hp
  have h := assocGet_of_mem_nodup (groupByKey (fun x : PairEntry => x.1.1) pairs)
    p ?_ hp
  · simp only [Function.comp_apply, h, Option.getD_some]
  · rw [groupByKey_keys]
    exact nodup_firstOccs _

lemma clusterAssign_cnt (lines : List (List Glyph × Pairs))
    (A : List (List Glyph × Int)) (grouped : List (Int × Pairs))
    (ungrouped : List Pairs) (e : PairEntry) :
    cnt e (flat ((clusterAssign lines A grouped ungrouped).1.map Prod.snd)) +
        cnt e (flat (clusterAssign lines A grouped ungrouped).2) =
      cnt e (flat (grouped.map Prod.snd)) + cnt e (flat ungrouped) +
        cnt e (flat (A.map fun p => (assocGet lines p.1).getD [])) := by
  induction A generalizing grouped ungrouped with
  | nil => simp [clusterAssign]
  | cons cl rest ih =>
    by_cases h : cl.2 = -1
    · simp only [clusterAssign, if_pos h]
      rw [ih]
      simp only [List.map_cons, flat_append, flat_cons, cnt_append]
      simp only [flat_nil, List.append_nil, cnt_nil]
      omega
    · simp only [clusterAssign, if_neg h]
      rw [ih, cnt_flat_bucketApp]
      simp only [List.map_cons, flat_cons, cnt_append]
      omega

lemma cluster_cnt (fp : FitPredict)
    (hfp : ∀ vs, (fp vs).length = vs.length) (pairs : Pairs) (e : PairEntry) :
    cnt e (flat (cluster_pairs_by_class2_coverage fp pairs)) = cnt e pairs := by
  have hlen : (firstOccs (pairs.map fun x : PairEntry => x.1.1)).length ≤
      (fp ((firstOccs (pairs.map fun x : PairEntry => x.1.1)).map fun c1 =>
        (firstOccs (pairs.map fun x : PairEntry => x.1.2)).map fun c2 =>
          if (assocGet pairs (c1, c2)).isSome then 1 else 0)).length := by
    rw [hfp, List.length_map]
  simp only [cluster_pairs_by_class2_coverage]
  rw [flat_append, cnt_append, clusterAssign_cnt]
  rw [zip_line_map _ _ _ hlen]
  rw [lines_self pairs]
  simp only [List.map_nil, flat_nil, cnt_nil, Nat.zero_add]
  rw [groupByKey_cnt]

lemma regroup_cnt (mode : String) (fp : FitPredict) (clen : Nat) (pairs : Pairs)
    (hm : mode = "one" ∨ mode = "max" ∨ mode = "auto")
    (hfp : ∀ vs, (fp vs).length = vs.length) :
    ∃ gs, regroup mode fp clen pairs = Except.ok gs ∧
      ∀ e, cnt e (flat gs) = cnt e pairs := by
  rcases hm with rfl | rfl | rfl
  · refine ⟨[pairs], rfl, ?_⟩
    intro e
    simp
  · refine ⟨(groupByKey (fun x : PairEntry => x.1.1) pairs).map Prod.snd,
      rfl, ?_⟩
    intro e
    exact groupByKey_cnt _ pairs e
  · by_cases hc : clen < 2
    · refine ⟨[pairs], ?_, ?_⟩
      · simp [regroup, hc]
      · intro e
        simp
    · refine ⟨cluster_pairs_by_class2_coverage fp pairs, ?_, ?_⟩
      · simp [regroup, hc]
      · intro e
        exact cluster_cnt fp hfp pairs e

/-- A value record whose only content is a non-zero x-advance. -/
def advRecord : ValueRecord := { XAdvance := some (-20) }

/-- A matrix cell carrying the non-zero `advRecord` as `Value1`. -/
def advCell : ValuePair := (some advRecord, none)

/-- A matrix cell with both value records absent (`None`). -/
def zeroCell : ValuePair := (none, none)

/-- A value record with all scalar fields absent (hence zero) but an
x-placement device table attached. -/
def devOnlyRecord : ValueRecord := { XPlaDevice := some ⟨7⟩ }

/-- A concrete labelling function putting every occupancy vector in
cluster 0; it returns one label per sample. -/
def cfpZero : FitPredict := fun vs => vs.map fun _ => 0

/-- A one-entry pair matrix used as a concrete test input. -/
def demoPairs : Pairs := [((["a"], ["x"]), advCell)]

/-- Claim C2: for every input PairMatrix and every strategy mode among
"one", "max" and "auto", the union of all SubtableGroups returned by
the strategy equals the input PairMatrix exactly: counted with
multiplicity nothing is lost, duplicated or invented, every entry of
the input lies in exactly one group, and no group holds an entry absent
from the input.  `hfp` is the scikit-learn contract (one label per
occupancy vector) and `hnd` the dict invariant of the input matrix
(unique keys). -/
theorem strategies_mass_conservation (mode : String) (fp : FitPredict)
    (clen : Nat) (pairs : Pairs)
    (hm : mode = "one" ∨ mode = "max" ∨ mode = "auto")
    (hfp : ∀ vs, (fp vs).length = vs.length)
    (hnd : (pairs.map Prod.fst).Nodup) :
    ∃ gs, regroup mode fp clen pairs = Except.ok gs ∧
      (∀ e, cnt e (flat gs) = cnt e pairs) ∧
      (∀ e ∈ pairs, gs.countP (memB e) = 1) ∧
      (∀ e, e ∉ pairs → gs.countP (memB e) = 0) := by
  obtain ⟨gs, hok, hcnt⟩ := regroup_cnt mode fp clen pairs hm hfp
  have hpairs_nd : pairs.Nodup := List.Nodup.of_map Prod.fst hnd
  refine ⟨gs, hok, hcnt, ?_, ?_⟩
  · intro e he
    refine countP_mem_eq_one_of_sum gs e ?_
    rw [← cnt_flat_eq_sum, hcnt e]
    exact cnt_eq_one_of_nodup hpairs_nd he
  · intro e hne
    refine countP_mem_eq_zero_of_sum gs e ?_
    rw [← cnt_flat_eq_sum, hcnt e]
    exact (cnt_eq_zero e pairs).mpr hne

/-- Witness for C2 at a concrete input: mode "one", the one-label-per-
vector clusterer `cfpZero` and the one-entry matrix `demoPairs`. -/
theorem strategies_mass_conservation_witness :
    (("one" : String) = "one" ∨ ("one" : String) = "max" ∨
      ("one" : String) = "auto") ∧
    (∀ vs, (cfpZero vs).length = vs.length) ∧
    ((demoPairs.map Prod.fst).Nodup) ∧
    (∃ gs, regroup "one" cfpZero 0 demoPairs = Except.ok gs ∧
      (∀ e, cnt e (flat gs) = cnt e demoPairs) ∧
      (∀ e ∈ demoPairs, gs.countP (memB e) = 1) ∧
      (∀ e, e ∉ demoPairs → gs.countP (memB e) = 0)) :=
  ⟨Or.inl rfl, fun vs => by simp [cfpZero], by decide,
    strategies_mass_conservation "one" cfpZero 0 demoPairs (Or.inl rfl)
      (fun vs => by simp [cfpZero]) (by decide)⟩

/-- Claim C9: on any non-empty PairMatrix the "one" strategy returns
exactly one SubtableGroup, equal to the entire input matrix. -/
theorem one_mode_single_group (pairs : Pairs) (fp : FitPredict) (clen : Nat)
    (_hne : pairs ≠ []) :
    regroup "one" fp clen pairs = Except.ok [pairs] ∧
      ([pairs] : List Pairs).length = 1 :=
  ⟨rfl, rfl⟩

/-- Witness for C9 at the concrete one-entry matrix `demoPairs`. -/
theorem one_mode_single_group_witness :
    demoPairs ≠ [] ∧
    (regroup "one" cfpZero 0 demoPairs = Except.ok [demoPairs] ∧
      ([demoPairs] : List Pairs).length = 1) :=
  ⟨by decide, one_mode_single_group demoPairs cfpZero 0 (by decide)⟩

/-- Claim C6: on any non-empty PairMatrix the "max" strategy returns
exactly as many SubtableGroups as there are distinct class1 glyph
tuples in the matrix, and inside each group all entries share one
class1 glyph tuple. -/
theorem max_mode_group_count (pairs : Pairs) (fp : FitPredict) (clen : Nat)
    (_hne : pairs ≠ []) :
    ∃ gs, regroup "max" fp clen pairs = Except.ok gs ∧
      gs.length = (pairs.map fun e : PairEntry => e.1.1).toFinset.card ∧
      ∀ g ∈ gs, ∀ e₁ ∈ g, ∀ e₂ ∈ g, e₁.1.1 = e₂.1.1 := by
  refine ⟨(groupByKey (fun e : PairEntry => e.1.1) pairs).map Prod.snd,
    rfl, ?_, ?_⟩
  · have h1 : ((groupByKey (fun e : PairEntry => e.1.1) pairs).map
        Prod.snd).length =
        ((groupByKey (fun e : PairEntry => e.1.1) pairs).map Prod.fst).length := by
      simp
    rw [h1, groupByKey_keys]
    rw [← List.toFinset_card_of_nodup (nodup_firstOccs _)]
    congr 1
    refine Finset.ext ?_
    intro a
    simp [List.mem_toFinset, mem_firstOccs]
  · intro g hg e₁ he₁ e₂ he₂
    rcases List.mem_map.mp hg with ⟨p, hp, rfl⟩
    have h1 := groupByKey_homog (fun e : PairEntry => e.1.1) pairs p hp e₁ he₁
    have h2 := groupByKey_homog (fun e : PairEntry => e.1.1) pairs p hp e₂ he₂
    exact h1.trans h2.symm

/-- Witness for C6 at the concrete one-entry matrix `demoPairs`. -/
theorem max_mode_group_count_witness :
    demoPairs ≠ [] ∧
    (∃ gs, regroup "max" cfpZero 0 demoPairs = Except.ok gs ∧
      gs.length = (demoPairs.map fun e : PairEntry => e.1.1).toFinset.card ∧
      ∀ g ∈ gs, ∀ e₁ ∈ g, ∀ e₂ ∈ g, e₁.1.1 = e₂.1.1) :=
  ⟨by decide, max_mode_group_count demoPairs cfpZero 0 (by decide)⟩

/-- A subtable whose only matrix cell is really zero, so its extracted
PairMatrix is empty. -/
def cexEmptySub : ClassPairSubtable :=
  { coverage := ["a"], classDef1 := [], classDef2 := [],
    class1Records := [[zeroCell]] }

/-- Counterexample to C5: on a subtable whose extracted PairMatrix is
empty, the "one" strategy still hands the empty matrix to the builder,
so exactly one (degenerate) subtable is produced instead of the zero
subtables the claim demands. -/
theorem one_mode_emits_subtable_for_empty_matrix :
    (extract cexEmptySub).all_pairs = [] ∧
    compact_class_pairs "one" cfpZero cexEmptySub = Except.ok [[]] :=
  ⟨rfl, rfl⟩

/-- Claim C5 as amended: with a mode among "one"/"max"/"auto" and a
label-per-sample clusterer, a non-empty PairMatrix always yields at
least one SubtableGroup (hence at least one output subtable); an empty
PairMatrix yields zero groups under "max" but still yields exactly one
group — the empty matrix itself, passed to the builder — under "one",
and likewise under "auto" when its `len(classes1) < 2` guard fires. -/
theorem subtable_count_per_matrix (mode : String) (fp : FitPredict)
    (clen : Nat) (pairs : Pairs)
    (hm : mode = "one" ∨ mode = "max" ∨ mode = "auto")
    (hfp : ∀ vs, (fp vs).length = vs.length) :
    ∃ gs, regroup mode fp clen pairs = Except.ok gs ∧
      (pairs ≠ [] → 1 ≤ gs.length) ∧
      (pairs = [] →
        (mode = "one" → gs = [[]]) ∧ (mode = "max" → gs = []) ∧
        (mode = "auto" → clen < 2 → gs = [[]])) := by
  obtain ⟨gs, hok, hcnt⟩ := regroup_cnt mode fp clen pairs hm hfp
  refine ⟨gs, hok, ?_, ?_⟩
  · intro hne
    obtain ⟨e, he⟩ := List.exists_mem_of_ne_nil pairs hne
    have hpos : 0 < cnt e (flat gs) := by
      rw [hcnt e]
      exact (cnt_pos e pairs).mpr he
    have hmem : e ∈ flat gs := (cnt_pos e (flat gs)).mp hpos
    cases gs with
    | nil => simp at hmem
    | cons g gs' => simp
  · intro hemp
    subst hemp
    refine ⟨?_, ?_, ?_⟩
    · intro h1
      subst h1
      have h := hok
      rw [show regroup "one" fp clen ([] : Pairs) = Except.ok [[]] from rfl] at h
      exact (Except.ok.inj h).symm
    · intro h1
      subst h1
      have h := hok
      rw [show regroup "max" fp clen ([] : Pairs) = Except.ok [] from rfl] at h
      exact (Except.ok.inj h).symm
    · intro h1 hc
      subst h1
      have h := hok
      rw [show regroup "auto" fp clen ([] : Pairs) =
        (if clen < 2 then Except.ok [([] : Pairs)]
         else Except.ok (cluster_pairs_by_class2_coverage fp [])) from rfl] at h
      rw [if_pos hc] at h
      exact (Except.ok.inj h).symm

/-- Witness for C5 (amended) at mode "max" and the concrete inputs
`cfpZero` / `demoPairs`. -/
theorem subtable_count_per_matrix_witness :
    (("max" : String) = "one" ∨ ("max" : String) = "max" ∨
      ("max" : String) = "auto") ∧
    (∀ vs, (cfpZero vs).length = vs.length) ∧
    (∃ gs, regroup "max" cfpZero 0 demoPairs = Except.ok gs ∧
      (demoPairs ≠ [] → 1 ≤ gs.length) ∧
      (demoPairs = [] →
        (("max" : String) = "one" → gs = [[]]) ∧
        (("max" : String) = "max" → gs = []) ∧
        (("max" : String) = "auto" → 0 < 2 → gs = [[]]))) :=
  ⟨Or.inr (Or.inl rfl), fun vs => by simp [cfpZero],
    subtable_count_per_matrix "max" cfpZero 0 demoPairs
      (Or.inr (Or.inl rfl)) (fun vs => by simp [cfpZero])⟩

/-- A subtable whose only matrix cell carries `devOnlyRecord`: zero
scalars but an attached device table. -/
def cexDevSub : ClassPairSubtable :=
  { coverage := ["a"], classDef1 := [], classDef2 := [],
    class1Records := [[(some devOnlyRecord, none)]] }

/-- Claim C1 evaluated at the failing input: `devOnlyRecord` has a
device table attached (`XPlaDevice`) and zero scalars, yet
`is_really_zero` judges it zero — the comma-less attribute tuple makes
the device check vacuous — so the extractor drops the value-pair from
the PairMatrix, where the claim (and the spec's stated intent) requires
it to be present. -/
theorem zero_filter_drops_device_only_pair :
    devOnlyRecord.XPlaDevice = some ⟨7⟩ ∧
    is_really_zero (some devOnlyRecord) = true ∧
    (extract cexDevSub).all_pairs = [] :=
  ⟨rfl, rfl, rfl⟩

/-- A subtable whose coverage spans two class1 ids but whose extracted
PairMatrix has a single distinct class1 key (the class-1 row is all
zero). -/
def cex3 : ClassPairSubtable :=
  { coverage := ["a", "b"], classDef1 := [("b", 1)], classDef2 := [("x", 1)],
    class1Records := [[zeroCell, advCell], [zeroCell, zeroCell]] }

/-- Claim C3 evaluated at the failing input: the PairMatrix of `cex3`
has exactly one distinct class1 key, yet `len(classes1) = 2`, so the
"auto" guard `len(classes1) < 2` does not fire and the strategy hands
the single-row matrix to the Row Clustering Engine instead of falling
back to "one" (scikit-learn then rejects the single sample). -/
theorem auto_guard_ignores_matrix_rows :
    (firstOccs ((extract cex3).all_pairs.map fun e : PairEntry => e.1.1)).length
      = 1 ∧
    (extract cex3).classes1.length = 2 ∧
    compact_class_pairs "auto" cfpZero cex3 =
      Except.ok (cluster_pairs_by_class2_coverage cfpZero
        (extract cex3).all_pairs) :=
  ⟨rfl, rfl, rfl⟩

/-- Python `int(q)`: truncation toward zero. -/
def pyInt (q : ℚ) : ℤ :=
  if q < 0 then -⌊-q⌋ else ⌊q⌋

/-- The `n_clusters` the source computes from `lines_per_cluster`
(source lines 193-197): `min(max(int(len(lines) / lines_per_cluster),
1), len(lines))`. -/
def n_clusters_from_lines_per_cluster (num_lines : Nat)
    (lines_per_cluster : ℚ) : ℤ :=
  min (max (pyInt ((num_lines : ℚ) / lines_per_cluster)) 1) (num_lines : ℤ)

/-- Modelled from the spec's words, for comparison with the source
formula: `max(1, min(round(num_rows / rows_per_cluster), num_rows))`
with `round` meaning rounding to the nearest integer. -/
def n_clusters_claimed (num_rows : Nat) (rows_per_cluster : ℚ) : ℤ :=
  max 1 (min (round ((num_rows : ℚ) / rows_per_cluster)) (num_rows : ℤ))

/-- Counterexample to C4: at 5 rows and 3 rows-per-cluster the source's
truncating division gives a target of 1 cluster while the claim's
rounding formula gives 2. -/
theorem rows_per_cluster_truncates_not_rounds :
    n_clusters_from_lines_per_cluster 5 3 = 1 ∧
    n_clusters_claimed 5 3 = 2 ∧
    n_clusters_from_lines_per_cluster 5 3 ≠ n_clusters_claimed 5 3 := by
  have hc5 : ((5 : Nat) : ℚ) = 5 := by norm_num
  have hfl : (⌊((5 : Nat) : ℚ) / 3⌋ : ℤ) = 1 := by
    rw [hc5, Int.floor_eq_iff]
    norm_num
  have hrd : round (((5 : Nat) : ℚ) / 3) = 2 := by
    rw [hc5, round_eq, Int.floor_eq_iff]
    norm_num
  have ha : n_clusters_from_lines_per_cluster 5 3 = 1 := by
    unfold n_clusters_from_lines_per_cluster pyInt
    rw [if_neg (by rw [hc5]; norm_num), hfl]
    norm_num
  have hb : n_clusters_claimed 5 3 = 2 := by
    unfold n_clusters_claimed
    rw [hrd]
    norm_num
  refine ⟨ha, hb, ?_⟩
  rw [ha, hb]
  decide

/-- Claim C4 as amended: whenever at least one row is present and the
rows-per-cluster parameter is positive, the target cluster count the
source passes to the clustering algorithm equals
`max(1, min(floor(num_rows / rows_per_cluster), num_rows))` — the
claim's formula with truncating division in place of rounding. -/
theorem rows_per_cluster_target_formula (num_lines : Nat) (q : ℚ)
    (hq : 0 < q) (hn : 1 ≤ num_lines) :
    n_clusters_from_lines_per_cluster num_lines q =
      max 1 (min ⌊(num_lines : ℚ) / q⌋ (num_lines : ℤ)) := by
  unfold n_clusters_from_lines_per_cluster pyInt
  have h0 : ¬((num_lines : ℚ) / q < 0) := by
    rw [not_lt]
    positivity
  rw [if_neg h0]
  have hn' : (1 : ℤ) ≤ (num_lines : ℤ) := by exact_mod_cast hn
  rcases le_total (⌊(num_lines : ℚ) / q⌋) 1 with h | h <;>
    simp only [min_def, max_def] <;> split_ifs <;> omega

/-- Witness for C4 (amended) at 5 rows and 3 rows-per-cluster. -/
theorem rows_per_cluster_target_formula_witness :
    (0 : ℚ) < 3 ∧ 1 ≤ 5 ∧
    n_clusters_from_lines_per_cluster 5 3 =
      max 1 (min ⌊((5 : Nat) : ℚ) / 3⌋ ((5 : Nat) : ℤ)) :=
  ⟨by norm_num, by decide,
    rows_per_cluster_target_formula 5 3 (by norm_num) (by decide)⟩

lemma except_bind_ok {ε α β : Type} (a : α) (f : α → Except ε β) :
    (Except.ok a >>= f) = f a := rfl

lemma except_bind_error {ε α β : Type} (e : ε) (f : α → Except ε β) :
    ((Except.error e : Except ε α) >>= f) = Except.error e := rfl

lemma compact_class_pairs_bad_mode (mode : String)
    (hm : mode ≠ "one" ∧ mode ≠ "max" ∧ mode ≠ "auto") (fp : FitPredict)
    (c : ClassPairSubtable) :
    compact_class_pairs mode fp c = Except.error "Bad config" := by
  unfold compact_class_pairs regroup
  rw [if_neg hm.1, if_neg hm.2.1, if_neg hm.2.2]

lemma compact_lookup_sts_bad_mode (mode : String) (fp : FitPredict)
    (sts : List PairSubtable)
    (hm : mode ≠ "one" ∧ mode ≠ "max" ∧ mode ≠ "auto")
    (hst : ∃ st ∈ sts, ∃ c, st = PairSubtable.classPair c) :
    ∃ msg, compact_lookup_sts mode fp sts = Except.error msg := by
  induction sts with
  | nil =>
    rcases hst with ⟨st, h, _⟩
    simp at h
  | cons st rest ih =>
    rcases hst with ⟨st', hmem, c, hc⟩
    rcases List.mem_cons.mp hmem with h | h
    · subst h
      subst hc
      refine ⟨"Bad config", ?_⟩
      simp only [compact_lookup_sts, compactSubtableDirect]
      rw [compact_class_pairs_bad_mode mode hm fp c]
      rfl
    · cases hd : compactSubtableDirect mode fp st with
      | error e =>
        refine ⟨e, ?_⟩
        simp only [compact_lookup_sts, hd, except_bind_error]
      | ok here =>
        obtain ⟨msg, hmsg⟩ := ih ⟨st', h, c, hc⟩
        refine ⟨msg, ?_⟩
        simp only [compact_lookup_sts, hd, except_bind_ok, hmsg,
          except_bind_error]

/-- The GPOS lookup list of a font that has no class-based (format 2)
pair subtable at all: a single pair-adjustment lookup holding one
glyph-pair subtable. -/
def glyphOnlyGpos : List Lookup := [Lookup.pairPos [PairSubtable.glyphPair 0] 1]

/-- Counterexample to C7: with the unrecognized mode "bogus", `compact`
on a font whose pair-adjustment lookups hold only glyph-pair (format 1)
subtables finishes successfully — no configuration error is ever
surfaced, because the mode is only examined inside
`compact_class_pairs`. -/
theorem bad_mode_accepted_without_class_subtable :
    (("bogus" : String) ≠ "one" ∧ ("bogus" : String) ≠ "max" ∧
      ("bogus" : String) ≠ "auto") ∧
    compact "bogus" cfpZero glyphOnlyGpos = Except.ok glyphOnlyGpos :=
  ⟨⟨by decide, by decide, by decide⟩, rfl⟩

/-- Claim C7 as amended: an unrecognized mode string raises the
`ValueError` exactly when compaction reaches a class-based (format 2)
pair subtable; in particular `compact` fails on every GPOS whose lookup
list contains a pair-adjustment lookup with a format-2 subtable, while
a font without any such subtable is compacted without complaint and the
bad mode goes unnoticed. -/
theorem bad_mode_raises_on_class_subtable (mode : String) (fp : FitPredict)
    (gpos : List Lookup)
    (hm : mode ≠ "one" ∧ mode ≠ "max" ∧ mode ≠ "auto")
    (hex : ∃ lk ∈ gpos, ∃ sts cnt0, lk = Lookup.pairPos sts cnt0 ∧
      ∃ st ∈ sts, ∃ c, st = PairSubtable.classPair c) :
    ∃ msg, compact mode fp gpos = Except.error msg := by
  induction gpos with
  | nil =>
    rcases hex with ⟨lk, h, _⟩
    simp at h
  | cons lk rest ih =>
    rcases hex with ⟨lk', hmem, hdata⟩
    rcases List.mem_cons.mp hmem with h | h
    · subst h
      rcases hdata with ⟨sts, cnt0, rfl, hst⟩
      obtain ⟨msg, hmsg⟩ := compact_lookup_sts_bad_mode mode fp sts hm hst
      refine ⟨msg, ?_⟩
      simp only [compact, compactLookup1, hmsg]
      rfl
    · cases h1 : compactLookup1 mode fp lk with
      | error e =>
        refine ⟨e, ?_⟩
        simp only [compact, h1, except_bind_error]
      | ok lkr =>
        obtain ⟨msg, hmsg⟩ := ih ⟨lk', h, hdata⟩
        refine ⟨msg, ?_⟩
        simp only [compact, h1, except_bind_ok, hmsg, except_bind_error]

/-- Witness for C7 (amended): mode "bogus" on a GPOS with one
class-based subtable errors out. -/
theorem bad_mode_raises_on_class_subtable_witness :
    (("bogus" : String) ≠ "one" ∧ ("bogus" : String) ≠ "max" ∧
      ("bogus" : String) ≠ "auto") ∧
    ∃ msg, compact "bogus" cfpZero
      [Lookup.pairPos [PairSubtable.classPair cexEmptySub] 1] =
        Except.error msg :=
  ⟨⟨by decide, by decide, by decide⟩,
    bad_mode_raises_on_class_subtable "bogus" cfpZero
      [Lookup.pairPos [PairSubtable.classPair cexEmptySub] 1]
      ⟨by decide, by decide, by decide⟩
      ⟨Lookup.pairPos [PairSubtable.classPair cexEmptySub] 1,
        List.mem_cons_self _ _,
        [PairSubtable.classPair cexEmptySub], 1, rfl,
        PairSubtable.classPair cexEmptySub, List.mem_cons_self _ _,
        cexEmptySub, rfl⟩⟩

/-- Claim C8: a glyph-pair (format 1) subtable is passed through
unchanged for every strategy mode — `compact_glyph_pairs` is the
identity on the subtable, and a lookup whose subtables are all
format 1 has its subtable list rebuilt equal to the original. -/
theorem format1_pass_through_identity (mode : String) (fp : FitPredict)
    (sts : List PairSubtable)
    (h : ∀ st ∈ sts, ∃ t, st = PairSubtable.glyphPair t) :
    (∀ st, compact_glyph_pairs mode st = [st]) ∧
    compact_lookup_sts mode fp sts = Except.ok sts := by
  refine ⟨fun st => rfl, ?_⟩
  induction sts with
  | nil => rfl
  | cons st rest ih =>
    rcases h st (List.mem_cons_self st rest) with ⟨t, rfl⟩
    have ihr := ih fun s hs => h s (List.mem_cons_of_mem _ hs)
    simp only [compact_lookup_sts, compactSubtableDirect, compact_glyph_pairs,
      except_bind_ok, ihr]
    rfl

/-- Witness for C8 at a concrete one-subtable lookup. -/
theorem format1_pass_through_identity_witness :
    (∀ st ∈ [PairSubtable.glyphPair 5], ∃ t, st = PairSubtable.glyphPair t) ∧
    ((∀ st, compact_glyph_pairs "one" st = [st]) ∧
      compact_lookup_sts "one" cfpZero [PairSubtable.glyphPair 5] =
        Except.ok [PairSubtable.glyphPair 5]) :=
  ⟨by
    intro st hst
    rcases List.mem_singleton.mp hst with rfl
    exact ⟨5, rfl⟩,
   format1_pass_through_identity "one" cfpZero [PairSubtable.glyphPair 5]
    (by
      intro st hst
      rcases List.mem_singleton.mp hst with rfl
      exact ⟨5, rfl⟩)⟩

/-- An extension lookup whose first (and only) wrapped subtable has a
format other than 1 or 2. -/
def extUnknownFirst : Lookup :=
  Lookup.extension [ExtensionPos.mk (some 2) (PairSubtable.otherFormat 3 0)] 1

/-- Claim C10 evaluated at the failing input.  In the direct path an
unknown-format subtable is indeed silently dropped and the rebuilt
count equals the new list's length; but in the extension path it is NOT
dropped: if it comes first, `compact_ext_lookup` reads the unassigned
local `new_subtables` and crashes (Python `UnboundLocalError`), and if
it follows a processed subtable it re-wraps that subtable's results a
second time, duplicating them. -/
theorem ext_unknown_format_not_dropped :
    compactLookup1 "one" cfpZero
        (Lookup.pairPos [PairSubtable.otherFormat 3 0] 1) =
      Except.ok (Lookup.pairPos [] 0) ∧
    compactLookup1 "one" cfpZero extUnknownFirst =
      Except.error "UnboundLocalError: new_subtables" ∧
    compactLookup1 "one" cfpZero (Lookup.extension
        [ExtensionPos.mk (some 2) (PairSubtable.classPair cexEmptySub),
         ExtensionPos.mk (some 2) (PairSubtable.otherFormat 3 7)] 2) =
      Except.ok (Lookup.extension
        [ExtensionPos.mk none (PairSubtable.built []),
         ExtensionPos.mk none (PairSubtable.built [])] 2) :=
  ⟨rfl, rfl, rfl⟩

end GposCompaction
